import Mathlib

/-!
Verification of the Twitter list categorization pipeline (src/twitter.ts,
src/categories.ts and the classify-twitter orchestrator script).

The TypeScript code is shallowly embedded: pure functions are translated
directly; external library calls (JavaScript regular-expression matching,
the Anthropic API call, `Date` parsing, the `feed` serializer, the file
system) are modelled as explicit parameters.  `publishedAt` stays a string,
as in the source, and the `new Date(s).getTime()` parse used by the sort
and retention code is an explicit parameter `getTime : String → Int`
(epoch milliseconds).
-/

/-- src/categories.ts — the fixed category enumeration. -/
def CATEGORIES : List String := [("AI/ML"), ("Funny"), ("Other")]

/-- src/twitter.ts `MAX_AGE_DAYS`. -/
def MAX_AGE_DAYS : Nat := 30

/-- Milliseconds in one day, the unit behind `cutoff.setDate(cutoff.getDate() - MAX_AGE_DAYS)`. -/
def msPerDay : Int := 86400000

/-- src/twitter.ts `interface Tweet`.  `category` is optional (absent until
classified), modelled as `Option String` because the TypeScript `Category`
type is a union of the three literal strings of `CATEGORIES`. -/
structure Tweet where
  id : String
  author : String
  handle : String
  content : String
  url : String
  publishedAt : String
  category : Option String
deriving Repr, DecidableEq

/-- src/twitter.ts `interface CacheData`; `updatedAt` (an ISO string written
from `new Date()`) is modelled as the save timestamp in epoch milliseconds. -/
structure CacheData where
  updatedAt : Int
  tweets : List Tweet
deriving Repr, DecidableEq

/-- `byId.set(tweet.id, tweet)` on a JavaScript `Map` in insertion order:
an existing key keeps its position and gets the new value, a fresh key is
appended. -/
def dedupSetLast (t : Tweet) : List Tweet → List Tweet
  | [] => [t]
  | u :: us => if u.id = t.id then t :: us else u :: dedupSetLast t us

/-- `byId.has(id)` for the insertion-ordered map modelled as a list. -/
def hasId (l : List Tweet) (i : String) : Bool := l.any (fun u => u.id = i)

/-- `if (!byId.has(tweet.id)) byId.set(tweet.id, tweet)` — the merge loop
for incoming tweets. -/
def dedupSetIfAbsent (acc : List Tweet) (t : Tweet) : List Tweet :=
  if hasId acc t.id then acc else acc ++ [t]

/-- src/twitter.ts `mergeTweets`: put every existing tweet into the map
(last write wins per id, position of the first), add each new tweet only
when its id is absent, then sort the values by `publishedAt` descending
(the comparator `new Date(b.publishedAt).getTime() - new Date(a.publishedAt).getTime()`). -/
def mergeTweets (getTime : String → Int) (existing newTweets : List Tweet) : List Tweet :=
  let m1 := existing.foldl (fun acc t => dedupSetLast t acc) []
  let m2 := newTweets.foldl dedupSetIfAbsent m1
  m2.mergeSort (fun a b => decide (getTime b.publishedAt ≤ getTime a.publishedAt))

/-- `hasId` restated as membership among the mapped ids. -/
theorem hasId_iff (l : List Tweet) (i : String) : hasId l i = true ↔ i ∈ l.map Tweet.id := by
  simp only [hasId, List.any_eq_true, decide_eq_true_eq, List.mem_map]

theorem hasId_append (l₁ l₂ : List Tweet) (i : String) :
    hasId (l₁ ++ l₂) i = (hasId l₁ i || hasId l₂ i) := by
  simp [hasId, List.any_append]

/-- Setting a fresh key on the map appends the entry. -/
theorem dedupSetLast_of_fresh (t : Tweet) (acc : List Tweet) (h : hasId acc t.id = false) :
    dedupSetLast t acc = acc ++ [t] := by
  induction acc with
  | nil => rfl
  | cons u us ih =>
    simp only [hasId, List.any_cons, Bool.or_eq_false_iff, decide_eq_false_iff_not] at h
    simp only [dedupSetLast, if_neg h.1, List.cons_append, List.cons.injEq, true_and]
    exact ih h.2

/-- The ids of the map after `byId.set`: unchanged when the key was present,
the key appended when fresh. -/
theorem map_id_dedupSetLast (t : Tweet) (acc : List Tweet) :
    (dedupSetLast t acc).map Tweet.id =
      if hasId acc t.id then acc.map Tweet.id else acc.map Tweet.id ++ [t.id] := by
  induction acc with
  | nil => simp [dedupSetLast, hasId]
  | cons u us ih =>
    by_cases h : u.id = t.id
    · simp [dedupSetLast, hasId, h]
    · simp only [dedupSetLast, if_neg h, List.map_cons, ih]
      have : hasId (u :: us) t.id = hasId us t.id := by
        simp [hasId, List.any_cons, h]
      rw [this]
      by_cases h2 : hasId us t.id <;> simp [h2]

theorem map_id_dedupSetIfAbsent (acc : List Tweet) (t : Tweet) :
    (dedupSetIfAbsent acc t).map Tweet.id =
      if hasId acc t.id then acc.map Tweet.id else acc.map Tweet.id ++ [t.id] := by
  unfold dedupSetIfAbsent
  by_cases h : hasId acc t.id <;> simp [h]

theorem ids_nodup_dedupSetLast (t : Tweet) (acc : List Tweet)
    (h : (acc.map Tweet.id).Nodup) : ((dedupSetLast t acc).map Tweet.id).Nodup := by
  rw [map_id_dedupSetLast]
  by_cases hc : hasId acc t.id
  · simpa [hc]
  · have : t.id ∉ acc.map Tweet.id := fun hm => hc ((hasId_iff acc t.id).2 hm)
    simp [hc, List.nodup_append, h, this]

theorem ids_nodup_dedupSetIfAbsent (acc : List Tweet) (t : Tweet)
    (h : (acc.map Tweet.id).Nodup) : ((dedupSetIfAbsent acc t).map Tweet.id).Nodup := by
  rw [map_id_dedupSetIfAbsent]
  by_cases hc : hasId acc t.id
  · simpa [hc]
  · have : t.id ∉ acc.map Tweet.id := fun hm => hc ((hasId_iff acc t.id).2 hm)
    simp [hc, List.nodup_append, h, this]

theorem ids_nodup_foldl_dedupSetLast (E : List Tweet) :
    ∀ acc : List Tweet, (acc.map Tweet.id).Nodup →
      ((E.foldl (fun acc t => dedupSetLast t acc) acc).map Tweet.id).Nodup := by
  induction E with
  | nil => intro acc h; simpa using h
  | cons t E ih =>
    intro acc h
    exact ih (dedupSetLast t acc) (ids_nodup_dedupSetLast t acc h)

theorem ids_nodup_foldl_dedupSetIfAbsent (I : List Tweet) :
    ∀ acc : List Tweet, (acc.map Tweet.id).Nodup →
      ((I.foldl dedupSetIfAbsent acc).map Tweet.id).Nodup := by
  induction I with
  | nil => intro acc h; simpa using h
  | cons t I ih =>
    intro acc h
    exact ih (dedupSetIfAbsent acc t) (ids_nodup_dedupSetIfAbsent acc t h)

/-- With pairwise-distinct ids, feeding the existing tweets into the map
reproduces them in order. -/
theorem foldl_dedupSetLast_eq (E : List Tweet) :
    ∀ acc : List Tweet, ((acc ++ E).map Tweet.id).Nodup →
      E.foldl (fun acc t => dedupSetLast t acc) acc = acc ++ E := by
  induction E with
  | nil => intro acc _; simp
  | cons t E ih =>
    intro acc h
    have hfresh : hasId acc t.id = false := by
      rw [List.map_append, List.nodup_append] at h
      have : t.id ∈ (t :: E).map Tweet.id := by simp
      have hnot : t.id ∉ acc.map Tweet.id := fun hm => h.2.2 hm this
      cases hh : hasId acc t.id
      · rfl
      · exact absurd ((hasId_iff acc t.id).1 hh) hnot
    have hstep : dedupSetLast t acc = acc ++ [t] := dedupSetLast_of_fresh t acc hfresh
    have h' : (((acc ++ [t]) ++ E).map Tweet.id).Nodup := by
      simpa [List.append_assoc] using h
    calc (t :: E).foldl (fun acc t => dedupSetLast t acc) acc
        = E.foldl (fun acc t => dedupSetLast t acc) (acc ++ [t]) := by
          simp [List.foldl_cons, hstep]
      _ = (acc ++ [t]) ++ E := ih (acc ++ [t]) h'
      _ = acc ++ t :: E := by simp

/-- With pairwise-distinct incoming ids, the incoming loop appends exactly
the tweets whose id is absent from the accumulator. -/
theorem foldl_dedupSetIfAbsent_eq (I : List Tweet) :
    ∀ acc : List Tweet, ((I.map Tweet.id).Nodup) →
      I.foldl dedupSetIfAbsent acc = acc ++ I.filter (fun t => !hasId acc t.id) := by
  induction I with
  | nil => intro acc _; simp
  | cons t I ih =>
    intro acc h
    rw [List.map_cons, List.nodup_cons] at h
    by_cases hc : hasId acc t.id = true
    · have hstep : dedupSetIfAbsent acc t = acc := by simp [dedupSetIfAbsent, hc]
      calc (t :: I).foldl dedupSetIfAbsent acc
          = I.foldl dedupSetIfAbsent acc := by simp [List.foldl_cons, hstep]
        _ = acc ++ I.filter (fun t => !hasId acc t.id) := ih acc h.2
        _ = acc ++ (t :: I).filter (fun t => !hasId acc t.id) := by
            simp [List.filter_cons, hc]
    · have hc' : hasId acc t.id = false := by simpa using hc
      have hstep : dedupSetIfAbsent acc t = acc ++ [t] := by simp [dedupSetIfAbsent, hc']
      have hfilter : I.filter (fun s => !hasId (acc ++ [t]) s.id)
          = I.filter (fun s => !hasId acc s.id) := by
        apply List.filter_congr
        intro s hs
        have hne : t.id ≠ s.id := by
          intro he
          exact h.1 (by simpa [he] using List.mem_map_of_mem Tweet.id hs)
        simp [hasId_append, hasId, hne]
      calc (t :: I).foldl dedupSetIfAbsent acc
          = I.foldl dedupSetIfAbsent (acc ++ [t]) := by simp [List.foldl_cons, hstep]
        _ = (acc ++ [t]) ++ I.filter (fun s => !hasId (acc ++ [t]) s.id) := ih (acc ++ [t]) h.2
        _ = acc ++ (t :: I).filter (fun s => !hasId acc s.id) := by
            simp [hfilter, List.filter_cons, hc']

theorem hasId_dedupSetIfAbsent_mono (acc : List Tweet) (t : Tweet) (i : String)
    (h : hasId acc i = true) : hasId (dedupSetIfAbsent acc t) i = true := by
  unfold dedupSetIfAbsent
  by_cases hc : hasId acc t.id <;> simp [hc, hasId_append, h]

theorem hasId_foldl_mono (B : List Tweet) : ∀ (acc : List Tweet) (i : String),
    hasId acc i = true → hasId (B.foldl dedupSetIfAbsent acc) i = true := by
  induction B with
  | nil => intro acc i h; simpa using h
  | cons t B ih => intro acc i h; exact ih _ i (hasId_dedupSetIfAbsent_mono acc t i h)

theorem hasId_dedupSetIfAbsent_self (acc : List Tweet) (t : Tweet) :
    hasId (dedupSetIfAbsent acc t) t.id = true := by
  unfold dedupSetIfAbsent
  by_cases hc : hasId acc t.id
  · rw [if_pos hc]; exact hc
  · rw [if_neg hc, hasId_append]
    simp [hasId]

theorem hasId_foldl_self (B : List Tweet) : ∀ acc : List Tweet, ∀ b ∈ B,
    hasId (B.foldl dedupSetIfAbsent acc) b.id = true := by
  induction B with
  | nil => intro acc b hb; cases hb
  | cons t B ih =>
    intro acc b hb
    rcases List.mem_cons.1 hb with rfl | hb'
    · exact hasId_foldl_mono B _ _ (hasId_dedupSetIfAbsent_self acc b)
    · exact ih _ b hb'

/-- When every incoming id is already present, the incoming loop is a no-op. -/
theorem foldl_dedupSetIfAbsent_absorbed (B : List Tweet) : ∀ acc : List Tweet,
    (∀ b ∈ B, hasId acc b.id = true) → B.foldl dedupSetIfAbsent acc = acc := by
  induction B with
  | nil => intro acc _; rfl
  | cons t B ih =>
    intro acc h
    have hstep : dedupSetIfAbsent acc t = acc := by simp [dedupSetIfAbsent, h t (by simp)]
    rw [List.foldl_cons, hstep]
    exact ih acc (fun b hb => h b (List.mem_cons_of_mem t hb))

theorem hasId_perm {l₁ l₂ : List Tweet} (h : l₁.Perm l₂) (i : String) :
    hasId l₁ i = hasId l₂ i := by
  have hmap := h.map Tweet.id
  by_cases hm : i ∈ l₂.map Tweet.id
  · rw [(hasId_iff l₁ i).2 (hmap.mem_iff.2 hm), (hasId_iff l₂ i).2 hm]
  · have h1 : hasId l₁ i = false := by
      cases hx : hasId l₁ i
      · rfl
      · exact absurd (hmap.mem_iff.1 ((hasId_iff l₁ i).1 hx)) hm
    have h2 : hasId l₂ i = false := by
      cases hx : hasId l₂ i
      · rfl
      · exact absurd ((hasId_iff l₂ i).1 hx) hm
    rw [h1, h2]

/-- Transitivity of the descending-by-time comparator. -/
theorem timeDesc_trans (getTime : String → Int) : ∀ a b c : Tweet,
    decide (getTime b.publishedAt ≤ getTime a.publishedAt) = true →
    decide (getTime c.publishedAt ≤ getTime b.publishedAt) = true →
    decide (getTime c.publishedAt ≤ getTime a.publishedAt) = true := by
  intro a b c h1 h2
  simp only [decide_eq_true_eq] at h1 h2 ⊢
  exact le_trans h2 h1

/-- Totality of the descending-by-time comparator. -/
theorem timeDesc_total (getTime : String → Int) : ∀ a b : Tweet,
    (decide (getTime b.publishedAt ≤ getTime a.publishedAt)
      || decide (getTime a.publishedAt ≤ getTime b.publishedAt)) = true := by
  intro a b
  simpa [Bool.or_eq_true, decide_eq_true_eq]
    using le_total (getTime b.publishedAt) (getTime a.publishedAt)

/-- Concrete tweets for witnesses and counterexamples. -/
def tweetA : Tweet :=
  { id := ("1"), author := ("Alice"), handle := ("alice"), content := ("first"),
    url := ("https://twitter.com/alice/status/1"), publishedAt := ("2026-01-02"),
    category := some ("Other") }

/-- Same id as `tweetA` but a different record. -/
def tweetB : Tweet :=
  { id := ("1"), author := ("Bob"), handle := ("bob"), content := ("second"),
    url := ("https://twitter.com/bob/status/1"), publishedAt := ("2026-01-03"),
    category := some ("Funny") }

/-- A tweet with a fresh id. -/
def tweetC : Tweet :=
  { id := ("2"), author := ("Cleo"), handle := ("cleo"), content := ("third"),
    url := ("https://twitter.com/cleo/status/2"), publishedAt := ("2026-01-01"),
    category := some ("AI/ML") }

/-- C1 counterexample: with a duplicated id inside the existing list the later
record overwrites the earlier one (a JavaScript `Map.set`), so the existing
post `tweetA` is NOT retained even though no incoming post shares its id —
the claim quantifies over every list and is therefore false as stated. -/
theorem mergeTweets_dup_counterexample :
    tweetA ∉ mergeTweets (fun _ => 0) [tweetA, tweetB] [] := by
  have h1 : [tweetA, tweetB].foldl (fun acc t => dedupSetLast t acc) [] = [tweetB] := by
    simp [dedupSetLast, tweetA, tweetB]
  have h2 : mergeTweets (fun _ => 0) [tweetA, tweetB] [] = [tweetB] := by
    show ([].foldl dedupSetIfAbsent
        ([tweetA, tweetB].foldl (fun acc t => dedupSetLast t acc) [])).mergeSort _ = [tweetB]
    rw [h1]
    simp
  rw [h2]
  simp [tweetA, tweetB]

/-- C1 (amended): for existing and incoming lists whose ids are each
pairwise distinct, `mergeTweets` keeps every existing post, keeps exactly
the incoming posts whose id is not already present (first write wins), and
sorts the result by parsed `publishedAt` descending. -/
theorem mergeTweets_spec (getTime : String → Int) (E I : List Tweet)
    (hE : (E.map Tweet.id).Nodup) (hI : (I.map Tweet.id).Nodup) :
    (mergeTweets getTime E I).Perm (E ++ I.filter (fun t => !hasId E t.id)) ∧
    (mergeTweets getTime E I).Pairwise
      (fun a b => getTime b.publishedAt ≤ getTime a.publishedAt) := by
  have hm1 : E.foldl (fun acc t => dedupSetLast t acc) [] = E := by
    simpa using foldl_dedupSetLast_eq E [] (by simpa using hE)
  have hm2 : I.foldl dedupSetIfAbsent E = E ++ I.filter (fun t => !hasId E t.id) :=
    foldl_dedupSetIfAbsent_eq I E hI
  have hdef : mergeTweets getTime E I
      = (E ++ I.filter (fun t => !hasId E t.id)).mergeSort
          (fun a b => decide (getTime b.publishedAt ≤ getTime a.publishedAt)) := by
    show (I.foldl dedupSetIfAbsent
        (E.foldl (fun acc t => dedupSetLast t acc) [])).mergeSort _ = _
    rw [hm1, hm2]
  constructor
  · rw [hdef]
    exact List.mergeSort_perm _ _
  · rw [hdef]
    exact (List.sorted_mergeSort (timeDesc_trans getTime) (timeDesc_total getTime)
      (E ++ I.filter (fun t => !hasId E t.id))).imp (fun h => of_decide_eq_true h)

/-- C1 witness: the amended claim at a concrete input. -/
theorem mergeTweets_spec_witness :
    (mergeTweets (fun _ => 0) [tweetA] [tweetB, tweetC]).Perm
      ([tweetA] ++ [tweetB, tweetC].filter (fun t => !hasId [tweetA] t.id)) ∧
    (mergeTweets (fun _ => 0) [tweetA] [tweetB, tweetC]).Pairwise
      (fun a b => (fun _ : String => (0 : Int)) b.publishedAt
        ≤ (fun _ : String => (0 : Int)) a.publishedAt) :=
  mergeTweets_spec (fun _ => 0) [tweetA] [tweetB, tweetC]
    (by simp) (by simp [tweetB, tweetC])

/-- C7: merging the same incoming posts a second time changes nothing. -/
theorem mergeTweets_merge_idempotent (getTime : String → Int) (A B : List Tweet) :
    mergeTweets getTime (mergeTweets getTime A B) B = mergeTweets getTime A B := by
  have hm1 : ((A.foldl (fun acc t => dedupSetLast t acc) []).map Tweet.id).Nodup :=
    ids_nodup_foldl_dedupSetLast A [] (by simp)
  have hm2 : ((B.foldl dedupSetIfAbsent
      (A.foldl (fun acc t => dedupSetLast t acc) [])).map Tweet.id).Nodup :=
    ids_nodup_foldl_dedupSetIfAbsent B _ hm1
  have hperm := List.mergeSort_perm
    (B.foldl dedupSetIfAbsent (A.foldl (fun acc t => dedupSetLast t acc) []))
    (fun a b => decide (getTime b.publishedAt ≤ getTime a.publishedAt))
  have hndM : ((mergeTweets getTime A B).map Tweet.id).Nodup :=
    ((hperm.map Tweet.id).nodup_iff).2 hm2
  have hinM : ∀ b ∈ B, hasId (mergeTweets getTime A B) b.id = true := by
    intro b hb
    have h1 : hasId (B.foldl dedupSetIfAbsent
        (A.foldl (fun acc t => dedupSetLast t acc) [])) b.id = true :=
      hasId_foldl_self B _ b hb
    calc hasId (mergeTweets getTime A B) b.id
        = hasId (B.foldl dedupSetIfAbsent
            (A.foldl (fun acc t => dedupSetLast t acc) [])) b.id := hasId_perm hperm b.id
      _ = true := h1
  have hsM : (mergeTweets getTime A B).Pairwise
      (fun a b => decide (getTime b.publishedAt ≤ getTime a.publishedAt) = true) :=
    List.sorted_mergeSort (timeDesc_trans getTime) (timeDesc_total getTime) _
  have h1 : (mergeTweets getTime A B).foldl (fun acc t => dedupSetLast t acc) []
      = mergeTweets getTime A B := by
    simpa using foldl_dedupSetLast_eq (mergeTweets getTime A B) [] (by simpa using hndM)
  have h2 : B.foldl dedupSetIfAbsent (mergeTweets getTime A B) = mergeTweets getTime A B :=
    foldl_dedupSetIfAbsent_absorbed B _ hinM
  show (B.foldl dedupSetIfAbsent
      ((mergeTweets getTime A B).foldl (fun acc t => dedupSetLast t acc) [])).mergeSort _
    = mergeTweets getTime A B
  rw [h1, h2]
  exact List.mergeSort_of_sorted hsM

/-- src/twitter.ts `classifyTweets` batching: `tweets.slice(i, i + BATCH_SIZE)`
with `BATCH_SIZE = 10`. -/
def toBatches : List Tweet → List (List Tweet)
  | [] => []
  | t :: ts => ((t :: ts).take 10) :: toBatches ((t :: ts).drop 10)
termination_by l => l.length
decreasing_by simp; omega

/-- `CATEGORIES.includes(categoryName) ? categoryName : "Other"`. -/
def validateCategory (categoryName : String) : String :=
  if CATEGORIES.contains categoryName then categoryName else ("Other")

/-- `categories[j] || "Other"` — JavaScript `||` replaces a missing line and
an empty line alike by the default. -/
def lineCategory (categories : List String) (j : Nat) : String :=
  if categories.getD j ("") = ("") then ("Other") else categories.getD j ("")

/-- `responseText.split("\n").map(trim).filter(nonempty)`. -/
def parseResponseCategories (responseText : String) : List String :=
  ((responseText.splitOn ("\n")).map String.trim).filter (fun line => line.length > 0)

/-- The `for (let j = 0; j < batch.length; j++)` body of `classifyTweets`
(the `if (!batchItem) continue` guard can never fire since `j` stays in
bounds). -/
def classifyLoop (categories : List String) : Nat → List Tweet → List Tweet
  | _, [] => []
  | j, t :: ts =>
    { id := t.id, author := t.author, handle := t.handle, content := t.content,
      url := t.url, publishedAt := t.publishedAt,
      category := some (validateCategory (lineCategory categories j)) }
      :: classifyLoop categories (j + 1) ts

/-- The per-tweet record pushed by the `catch` branch: all fields copied,
category defaulted to "Other". -/
def defaultOther (t : Tweet) : Tweet :=
  { id := t.id, author := t.author, handle := t.handle, content := t.content,
    url := t.url, publishedAt := t.publishedAt, category := some ("Other") }

/-- One iteration of the batch loop of `classifyTweets`: the external call
(`client.messages.create` and the response-text extraction) is the
parameter `respond`; a thrown error is `Except.error`. -/
def classifyBatch (respond : List Tweet → Except Unit String) (batch : List Tweet) :
    List Tweet :=
  match respond batch with
  | Except.ok responseText => classifyLoop (parseResponseCategories responseText) 0 batch
  | Except.error _ => batch.map defaultOther

/-- src/twitter.ts `classifyTweets`: throws when `ANTHROPIC_API_KEY` is
unset, otherwise concatenates the per-batch results in order. -/
def classifyTweets (apiKey : Option String) (respond : List Tweet → Except Unit String)
    (tweets : List Tweet) : Except Unit (List Tweet) :=
  match apiKey with
  | none => Except.error ()
  | some _ => Except.ok (((toBatches tweets).map (classifyBatch respond)).flatten)

/-- A tweet with its (optional) classification removed. -/
def stripCategory (t : Tweet) : Tweet :=
  { id := t.id, author := t.author, handle := t.handle, content := t.content,
    url := t.url, publishedAt := t.publishedAt, category := none }

theorem toBatches_flatten : ∀ l : List Tweet, (toBatches l).flatten = l
  | [] => by simp [toBatches]
  | t :: ts => by
    rw [toBatches, List.flatten_cons, toBatches_flatten ((t :: ts).drop 10)]
    exact List.take_append_drop 10 (t :: ts)
termination_by l => l.length
decreasing_by simp; omega

theorem classifyLoop_strip (categories : List String) : ∀ (j : Nat) (batch : List Tweet),
    (classifyLoop categories j batch).map stripCategory = batch.map stripCategory := by
  intro j batch
  induction batch generalizing j with
  | nil => rfl
  | cons t ts ih => simp [classifyLoop, stripCategory, ih]

theorem classifyLoop_categories (categories : List String) : ∀ (j : Nat) (batch : List Tweet),
    ∀ t ∈ classifyLoop categories j batch, ∃ c ∈ CATEGORIES, t.category = some c := by
  intro j batch
  induction batch generalizing j with
  | nil => intro t ht; cases ht
  | cons u us ih =>
    intro t ht
    rcases List.mem_cons.1 ht with rfl | ht'
    · refine ⟨validateCategory (lineCategory categories j), ?_, rfl⟩
      unfold validateCategory
      by_cases h : CATEGORIES.contains (lineCategory categories j)
      · rw [if_pos h]
        exact List.elem_iff.1 h
      · rw [if_neg h]
        simp [CATEGORIES]
    · exact ih (j + 1) t ht'

theorem classifyBatch_strip (respond : List Tweet → Except Unit String) (batch : List Tweet) :
    (classifyBatch respond batch).map stripCategory = batch.map stripCategory := by
  unfold classifyBatch
  cases respond batch with
  | ok responseText => exact classifyLoop_strip _ 0 batch
  | error e =>
    rw [List.map_map]
    have h : stripCategory ∘ defaultOther = stripCategory := funext fun t => rfl
    rw [h]

theorem classifyBatch_categories (respond : List Tweet → Except Unit String)
    (batch : List Tweet) :
    ∀ t ∈ classifyBatch respond batch, ∃ c ∈ CATEGORIES, t.category = some c := by
  unfold classifyBatch
  cases respond batch with
  | ok responseText => exact classifyLoop_categories _ 0 batch
  | error e =>
    intro t ht
    obtain ⟨u, _, rfl⟩ := List.mem_map.1 ht
    exact ⟨("Other"), by simp [CATEGORIES], rfl⟩

/-- C2: classification returns as many posts as it was given, in the same
order with the same fields, and every assigned category is one of the fixed
enumeration (invalid labels and missing response lines fall back to
"Other", which is itself a member). -/
theorem classifyTweets_spec (apiKey : Option String) (k : String)
    (respond : List Tweet → Except Unit String) (tweets : List Tweet)
    (hk : apiKey = some k) :
    (∃ out, classifyTweets apiKey respond tweets = Except.ok out ∧
      out.length = tweets.length ∧
      out.map stripCategory = tweets.map stripCategory ∧
      ∀ t ∈ out, ∃ c ∈ CATEGORIES, t.category = some c) ∧
    (∀ s : String, s ∉ CATEGORIES → validateCategory s = ("Other")) ∧
    (∀ (cs : List String) (j : Nat), cs.length ≤ j → lineCategory cs j = ("Other")) := by
  subst hk
  have hB : ∀ s : String, s ∉ CATEGORIES → validateCategory s = ("Other") := by
    intro s hs
    unfold validateCategory
    rw [if_neg (fun hc => hs (List.elem_iff.1 hc))]
  have hC : ∀ (cs : List String) (j : Nat), cs.length ≤ j → lineCategory cs j = ("Other") := by
    intro cs j hj
    unfold lineCategory
    rw [List.getD_eq_default _ _ hj]
    simp
  refine ⟨?_, hB, hC⟩
  refine ⟨((toBatches tweets).map (classifyBatch respond)).flatten, rfl, ?_⟩
  have hstrip : (((toBatches tweets).map (classifyBatch respond)).flatten).map stripCategory
      = tweets.map stripCategory := by
    rw [List.map_flatten, List.map_map]
    have hcongr : (toBatches tweets).map (List.map stripCategory ∘ classifyBatch respond)
        = (toBatches tweets).map (List.map stripCategory) :=
      List.map_congr_left (fun b _ => classifyBatch_strip respond b)
    rw [hcongr, ← List.map_flatten, toBatches_flatten]
  refine ⟨?_, hstrip, ?_⟩
  · have h1 := congrArg List.length hstrip
    rwa [List.length_map, List.length_map] at h1
  · intro t ht
    obtain ⟨l, hl, htl⟩ := List.mem_flatten.1 ht
    obtain ⟨b, hb, rfl⟩ := List.mem_map.1 hl
    exact classifyBatch_categories respond b t htl

/-- C2 witness: the specification applied to a concrete one-element input. -/
theorem classifyTweets_spec_witness :
    (∃ out, classifyTweets (some ("key")) (fun _ => Except.error ()) [tweetA]
        = Except.ok out ∧
      out.length = [tweetA].length ∧
      out.map stripCategory = [tweetA].map stripCategory ∧
      ∀ t ∈ out, ∃ c ∈ CATEGORIES, t.category = some c) ∧
    (∀ s : String, s ∉ CATEGORIES → validateCategory s = ("Other")) ∧
    (∀ (cs : List String) (j : Nat), cs.length ≤ j → lineCategory cs j = ("Other")) :=
  classifyTweets_spec (some ("key")) ("key") (fun _ => Except.error ()) [tweetA] rfl

theorem mem_toBatches_segment (respond : List Tweet → Except Unit String)
    (tweets batch : List Tweet) (hb : batch ∈ toBatches tweets) :
    ∃ pre post, ((toBatches tweets).map (classifyBatch respond)).flatten
      = pre ++ classifyBatch respond batch ++ post := by
  obtain ⟨s, u, hsu⟩ := List.append_of_mem hb
  refine ⟨(s.map (classifyBatch respond)).flatten, (u.map (classifyBatch respond)).flatten, ?_⟩
  rw [hsu]
  simp [List.map_append, List.flatten_append, List.append_assoc]

/-- C3: with the API key present, a batch whose external call throws does
not make `classifyTweets` raise; that batch reappears in the output as a
contiguous segment with every field copied, the same ids in the same order,
and every category defaulted to "Other". -/
theorem classifyTweets_error_defaults (apiKey : Option String) (k : String)
    (respond : List Tweet → Except Unit String) (tweets batch : List Tweet)
    (hk : apiKey = some k) (hb : batch ∈ toBatches tweets)
    (he : respond batch = Except.error ()) :
    ∃ out, classifyTweets apiKey respond tweets = Except.ok out ∧
      ∃ pre post, out = pre ++ batch.map defaultOther ++ post ∧
        (batch.map defaultOther).map Tweet.id = batch.map Tweet.id ∧
        ∀ t ∈ batch.map defaultOther, t.category = some ("Other") := by
  subst hk
  refine ⟨_, rfl, ?_⟩
  obtain ⟨pre, post, hseg⟩ := mem_toBatches_segment respond tweets batch hb
  have hcb : classifyBatch respond batch = batch.map defaultOther := by
    unfold classifyBatch
    rw [he]
  refine ⟨pre, post, ?_, ?_, ?_⟩
  · rw [hseg, hcb]
  · rw [List.map_map]
    have h : Tweet.id ∘ defaultOther = Tweet.id := funext fun t => rfl
    rw [h]
  · intro t ht
    obtain ⟨u, _, rfl⟩ := List.mem_map.1 ht
    rfl

/-- C3 witness: a batch of three posts whose external call throws. -/
theorem classifyTweets_error_defaults_witness :
    ∃ out, classifyTweets (some ("key")) (fun _ => Except.error ())
        [tweetA, tweetB, tweetC] = Except.ok out ∧
      ∃ pre post, out = pre ++ [tweetA, tweetB, tweetC].map defaultOther ++ post ∧
        ([tweetA, tweetB, tweetC].map defaultOther).map Tweet.id
          = [tweetA, tweetB, tweetC].map Tweet.id ∧
        ∀ t ∈ [tweetA, tweetB, tweetC].map defaultOther, t.category = some ("Other") :=
  classifyTweets_error_defaults (some ("key")) ("key") (fun _ => Except.error ())
    [tweetA, tweetB, tweetC] [tweetA, tweetB, tweetC] rfl (by simp [toBatches]) rfl

/-- The characters the id regex `/status\x2F(\d+)/` anchors on. -/
def statusKey : List Char := ['s','t','a','t','u','s','/']

/-- First match of `/status\x2F(\d+)/`: scan left to right; where "status/"
is followed by at least one digit, capture the digit run, otherwise keep
scanning from the next position. -/
def statusDigits : List Char → Option (List Char)
  | [] => none
  | c :: cs =>
    if statusKey.isPrefixOf (c :: cs) then
      (if ((c :: cs).drop 7).takeWhile Char.isDigit = [] then statusDigits cs
       else some (((c :: cs).drop 7).takeWhile Char.isDigit))
    else statusDigits cs

/-- `url.match(/status\x2F(\d+)/)?.[1]`. -/
def findStatusId (url : String) : Option String :=
  (statusDigits url.toList).map List.asString

/-- src/twitter.ts `interface ReadwiseDocument`. -/
structure ReadwiseDocument where
  id : String
  title : Option String
  source : Option String
  html_content : Option String
  category : Option String
  published_date : Option String
deriving Repr, DecidableEq

/-- The JavaScript regular-expression machinery of `parseTweetsFromDocument`
as abstract match functions: `matchArticles` is the global `tweetRegex` loop
(one string per embedded-tweet article body), `authorMatch`, `handleMatch`
and `urlMatch` are the first capture group of the corresponding `match`
calls, and `contentOf` is the final content text after the pattern chain
and the strip-everything fallback. -/
structure ArticleExtractors where
  matchArticles : String → List String
  authorMatch : String → Option String
  handleMatch : String → Option String
  urlMatch : String → Option String
  contentOf : String → String

/-- The body of the extraction loop of `parseTweetsFromDocument`: recover
the fields with their `?? ...` defaults, derive the id from the url (with
the `handle-Date.now()` fallback, `nowMs`), truncate the content, and push
the record only when content and url are both non-empty. -/
def parseArticle (E : ArticleExtractors) (nowMs : String) (digestDate : String)
    (articleHtml : String) : Option Tweet :=
  let author := ((E.authorMatch articleHtml).map String.trim).getD ("Unknown")
  let handle := (E.handleMatch articleHtml).getD ("unknown")
  let url := (E.urlMatch articleHtml).getD ("")
  let id := (findStatusId url).getD (handle ++ ("-") ++ nowMs)
  let content := E.contentOf articleHtml
  if content ≠ ("") ∧ url ≠ ("") then
    some { id := id, author := author, handle := handle,
           content := content.take 500, url := url, publishedAt := digestDate,
           category := none }
  else none

/-- src/twitter.ts `parseTweetsFromDocument`: run the article loop over the
document's html (`?? ""`), dating every record with the digest's
`published_date ?? new Date().toISOString()` (`nowIso`). -/
def parseTweetsFromDocument (E : ArticleExtractors) (nowIso nowMs : String)
    (doc : ReadwiseDocument) : List Tweet :=
  (E.matchArticles (doc.html_content.getD (""))).filterMap
    (parseArticle E nowMs (doc.published_date.getD nowIso))

/-- src/twitter.ts `saveCache`: filter to the last `MAX_AGE_DAYS` days
relative to the persist clock `now`, stamp `updatedAt`, and write the whole
filtered set. -/
def saveCache (getTime : String → Int) (now : Int) (tweets : List Tweet) : CacheData :=
  { updatedAt := now,
    tweets := tweets.filter
      (fun t => decide (now - (MAX_AGE_DAYS : Int) * msPerDay ≤ getTime t.publishedAt)) }

/-- C4: a fragment yields a record exactly when both its extracted content
and its extracted url are non-empty after all fallbacks; every such record
is in the output, everything in the output comes from some fragment, and a
dropped fragment affects nothing else. -/
theorem parseTweets_guard (E : ArticleExtractors) (nowIso nowMs : String)
    (doc : ReadwiseDocument) :
    (∀ art ∈ E.matchArticles (doc.html_content.getD ("")),
        ((parseArticle E nowMs (doc.published_date.getD nowIso) art).isSome
          ↔ (E.contentOf art ≠ ("") ∧ (E.urlMatch art).getD ("") ≠ ("")))) ∧
    (∀ art ∈ E.matchArticles (doc.html_content.getD ("")), ∀ t : Tweet,
        parseArticle E nowMs (doc.published_date.getD nowIso) art = some t →
          t ∈ parseTweetsFromDocument E nowIso nowMs doc) ∧
    (∀ t ∈ parseTweetsFromDocument E nowIso nowMs doc,
        ∃ art ∈ E.matchArticles (doc.html_content.getD ("")),
          parseArticle E nowMs (doc.published_date.getD nowIso) art = some t) := by
  refine ⟨?_, ?_, ?_⟩
  · intro art _
    by_cases h : E.contentOf art ≠ ("") ∧ (E.urlMatch art).getD ("") ≠ ("")
    · simp [parseArticle, h]
    · simp [parseArticle, h]
  · intro art hart t ht
    exact List.mem_filterMap.2 ⟨art, hart, ht⟩
  · intro t ht
    obtain ⟨a, ha, hat⟩ := List.mem_filterMap.1 ht
    exact ⟨a, ha, hat⟩

/-- C5: the persisted set holds no post older than the retention window and
every in-window post. -/
theorem saveCache_retention (getTime : String → Int) (now : Int) (tweets : List Tweet) :
    (∀ t ∈ (saveCache getTime now tweets).tweets,
        ¬ (getTime t.publishedAt < now - (MAX_AGE_DAYS : Int) * msPerDay)) ∧
    (∀ t ∈ tweets, now - (MAX_AGE_DAYS : Int) * msPerDay ≤ getTime t.publishedAt →
        t ∈ (saveCache getTime now tweets).tweets) := by
  constructor
  · intro t ht
    have h := (List.mem_filter.1 ht).2
    simp only [decide_eq_true_eq] at h
    exact not_lt.2 h
  · intro t ht h
    exact List.mem_filter.2 ⟨ht, by simpa using h⟩

/-- C10 (amended): every retained record's id is the digit run after the
first case-sensitive "status/" of its url when the url has one; otherwise
its id is the synthesized `handle-nowMs` fallback.  The fallback can
survive with a non-empty url: the url regex (twitter.ts line 83) carries
the case-insensitive flag while the id regex (line 88) does not, so a
matched url need not contain a lowercase "status/" followed by digits. -/
theorem parseTweets_id (E : ArticleExtractors) (nowIso nowMs : String)
    (doc : ReadwiseDocument) (t : Tweet)
    (ht : t ∈ parseTweetsFromDocument E nowIso nowMs doc) :
    findStatusId t.url = some t.id ∨
      (findStatusId t.url = none ∧ t.id = t.handle ++ ("-") ++ nowMs) := by
  obtain ⟨art, hart, hat⟩ := List.mem_filterMap.1 ht
  by_cases hg : E.contentOf art ≠ ("") ∧ (E.urlMatch art).getD ("") ≠ ("")
  · simp only [parseArticle, if_pos hg, Option.some.injEq] at hat
    cases hd : findStatusId ((E.urlMatch art).getD ("")) with
    | some d =>
      rw [hd] at hat
      subst hat
      left
      simpa using hd
    | none =>
      rw [hd] at hat
      subst hat
      right
      exact ⟨by simpa using hd, rfl⟩
  · simp only [parseArticle, if_neg hg] at hat
    cases hat

/-- A concrete digest document for witnesses. -/
def sampleDoc : ReadwiseDocument :=
  { id := ("doc1"), title := some ("Following Twitter List: Tech"), source := none,
    html_content := some ("<html>"), category := some ("rss"),
    published_date := some ("2026-01-01T00:00:00Z") }

/-- Concrete extraction results for one well-formed fragment. -/
def sampleExtractors : ArticleExtractors :=
  { matchArticles := fun _ => [("frag")],
    authorMatch := fun _ => none,
    handleMatch := fun _ => some ("ada"),
    urlMatch := fun _ => some ("https://twitter.com/ada/status/42"),
    contentOf := fun _ => ("Hello world from Ada") }

/-- The record `parseTweetsFromDocument` extracts from `sampleDoc` under
`sampleExtractors`. -/
def sampleParsed : Tweet :=
  { id := ("42"), author := ("Unknown"), handle := ("ada"),
    content := (("Hello world from Ada").take 500),
    url := ("https://twitter.com/ada/status/42"),
    publishedAt := ("2026-01-01T00:00:00Z"), category := none }

set_option maxRecDepth 4000 in
theorem sampleParsed_eval :
    parseTweetsFromDocument sampleExtractors ("now") ("123") sampleDoc = [sampleParsed] := rfl

set_option maxRecDepth 4000 in
/-- C10 witness: the amended statement at the lowercase-url record, which
takes the digit-run branch. -/
theorem parseTweets_id_witness :
    findStatusId sampleParsed.url = some sampleParsed.id ∨
      (findStatusId sampleParsed.url = none ∧
        sampleParsed.id = sampleParsed.handle ++ ("-") ++ ("123")) :=
  parseTweets_id sampleExtractors ("now") ("123") sampleDoc sampleParsed
    (by rw [sampleParsed_eval]; exact List.mem_singleton_self _)

/-- Extraction results whose url carries a capital-S "Status", as the
case-insensitive url regex can capture from a real digest. -/
def caseExtractors : ArticleExtractors :=
  { matchArticles := fun _ => [("frag")],
    authorMatch := fun _ => none,
    handleMatch := fun _ => some ("ada"),
    urlMatch := fun _ => some ("https://twitter.com/ada/Status/42"),
    contentOf := fun _ => ("Hello world from Ada") }

/-- The record extracted under `caseExtractors`: the case-sensitive id
match fails on the capital-S url, so the synthesized fallback id is used. -/
def sampleFallback : Tweet :=
  { id := (("ada") ++ ("-") ++ ("123")), author := ("Unknown"), handle := ("ada"),
    content := (("Hello world from Ada").take 500),
    url := ("https://twitter.com/ada/Status/42"),
    publishedAt := ("2026-01-01T00:00:00Z"), category := none }

set_option maxRecDepth 4000 in
theorem sampleFallback_eval :
    parseTweetsFromDocument caseExtractors ("now") ("123") sampleDoc = [sampleFallback] := rfl

set_option maxRecDepth 4000 in
/-- C10 counterexample: a retained record whose url is non-empty yet whose
id is not the digit run of its url but the synthesized `handle-timestamp`
fallback — the url regex is case-insensitive while the id regex is not, so
a `.../Status/42` url is kept with fallback id "ada-123", refuting the
claim as stated. -/
theorem parseTweets_fallback_counterexample :
    sampleFallback ∈ parseTweetsFromDocument caseExtractors ("now") ("123") sampleDoc ∧
    sampleFallback.url ≠ ("") ∧
    findStatusId sampleFallback.url = none ∧
    sampleFallback.id = sampleFallback.handle ++ ("-") ++ ("123") := by
  refine ⟨?_, ?_, ?_, rfl⟩
  · rw [sampleFallback_eval]
    exact List.mem_singleton_self _
  · decide
  · decide

/-- The global replace of `/\s*&\s*/` by "-" in `categoryToSlug`, on the
character list: at each position, a whitespace run followed by `&` and a
whitespace run collapses to one hyphen. -/
def ampReplace : List Char → List Char
  | [] => []
  | c :: cs =>
    if c = '&' then '-' :: ampReplace (cs.dropWhile Char.isWhitespace)
    else if c.isWhitespace then
      match h : cs.dropWhile Char.isWhitespace with
      | '&' :: rest => '-' :: ampReplace (rest.dropWhile Char.isWhitespace)
      | _ => c :: ampReplace cs
    else c :: ampReplace cs
termination_by l => l.length
decreasing_by
  · have h1 := (List.dropWhile_sublist (l := cs) Char.isWhitespace).length_le
    simp
    omega
  · have h1 := (List.dropWhile_sublist (l := cs) Char.isWhitespace).length_le
    rw [h] at h1
    have h2 := (List.dropWhile_sublist (l := rest) Char.isWhitespace).length_le
    simp at h1 ⊢
    omega
  · simp
  · simp

/-- The global replace of `/\s+/` by "-". -/
def wsCollapse : List Char → List Char
  | [] => []
  | c :: cs =>
    if c.isWhitespace then '-' :: wsCollapse (cs.dropWhile Char.isWhitespace)
    else c :: wsCollapse cs
termination_by l => l.length
decreasing_by
  · have h1 := (List.dropWhile_sublist (l := cs) Char.isWhitespace).length_le
    simp
    omega
  · simp

/-- src/categories.ts `categoryToSlug`: lowercase, slashes to hyphens,
ampersands (with surrounding whitespace) to hyphens, whitespace runs to
hyphens. -/
def categoryToSlug (category : String) : String :=
  List.asString (wsCollapse (ampReplace ((category.toLower.replace ("/") ("-")).toList)))

/-- What the code passes to `feed.addItem` (the `feed` library serializes
it; `date: new Date(date)` keeps the day string). -/
structure FeedItem where
  title : String
  id : String
  link : String
  description : String
  date : String
deriving Repr, DecidableEq

/-- What the code passes to `new Feed({...})` plus the added items;
`feed.rss2()` is a pure serialization of this record. -/
structure FeedDoc where
  title : String
  description : String
  id : String
  link : String
  language : String
  updated : String
  copyright : String
  items : List FeedItem
deriving Repr, DecidableEq

/-- `tweet.publishedAt.split("T")[0] ?? tweet.publishedAt` — the calendar
day of a tweet. -/
def tweetDate (t : Tweet) : String := (t.publishedAt.splitOn ("T")).headD t.publishedAt

/-- `tweet.category ?? "Other"` in the per-day category grouping. -/
def tweetCategory (t : Tweet) : String := t.category.getD ("Other")

/-- One `map.set(key, [...list, x])` step of the grouping loops: a
JavaScript `Map` keeps the first-insertion position of a key. -/
def upsertGroup {α : Type} (k : String) (x : α) :
    List (String × List α) → List (String × List α)
  | [] => [(k, [x])]
  | p :: rest => if p.1 = k then (p.1, p.2 ++ [x]) :: rest else p :: upsertGroup k x rest

/-- `groupTweetsByDate` / the per-day `byCategory` loop: group a list by a
string key, groups ordered by first occurrence, members in list order. -/
def groupByKey {α : Type} (key : α → String) (l : List α) : List (String × List α) :=
  l.foldl (fun acc x => upsertGroup (key x) x acc) []

/-- src/twitter.ts `formatTweetsAsHtml`. -/
def formatTweetsAsHtml (tweets : List Tweet) : String :=
  String.intercalate ("\n<hr>\n") (tweets.map (fun t =>
    ("<p><strong><a href=\"https://twitter.com/") ++ t.handle ++ ("\">@") ++ t.handle
      ++ ("</a></strong>: ") ++ ((t.content.replace ("<") ("&lt;")).replace (">") ("&gt;"))
      ++ ("<br><a href=\"") ++ t.url ++ ("\">View tweet</a></p>")))

/-- The category-section loop of `generateAllTweetsRss`: one `<h3>` heading
per category (name and count) followed by that category's tweets. -/
def categorySectionsHtml (groups : List (String × List Tweet)) : String :=
  groups.foldl (fun html p =>
    html ++ ("<h3>") ++ p.1 ++ (" (") ++ toString p.2.length ++ (")</h3>\n")
      ++ formatTweetsAsHtml p.2 ++ ("\n")) ("")

/-- src/twitter.ts `groupTweetsByDate`: group tweets by the date portion of
`publishedAt` (a `Map<string, Tweet[]>` in insertion order). -/
def groupTweetsByDate (tweets : List Tweet) : List (String × List Tweet) :=
  groupByKey tweetDate tweets

/-- src/twitter.ts `generateCategoryRss`; `now` is the `new Date()` the
code stores in the feed-level `updated` field; dates sort by
`b.localeCompare(a)`, i.e. descending. -/
def generateCategoryRss (now : String) (tweets : List Tweet) (category : String) : FeedDoc :=
  let categoryTweets := tweets.filter (fun t => decide (t.category = some category))
  let slug := categoryToSlug category
  let byDate := groupTweetsByDate categoryTweets
  let sortedDates := (byDate.map Prod.fst).mergeSort (fun a b => decide (b ≤ a))
  { title := ("Twitter: ") ++ category,
    description := ("Categorized tweets from Twitter Following list - ") ++ category,
    id := ("https://rss.jasonbenn.com/twitter/") ++ slug,
    link := ("https://rss.jasonbenn.com/twitter/") ++ slug,
    language := ("en"), updated := now, copyright := (""),
    items := (sortedDates.take 30).map (fun date =>
      { title := category ++ (": ") ++ date ++ (" (")
          ++ toString ((byDate.lookup date).getD []).length ++ (" tweets)"),
        id := slug ++ ("-") ++ date,
        link := ("https://rss.jasonbenn.com/twitter/") ++ slug,
        description := formatTweetsAsHtml ((byDate.lookup date).getD []),
        date := date }) }

/-- src/twitter.ts `generateAllTweetsRss`: all tweets grouped by day, each
day's body subdivided into category sections. -/
def generateAllTweetsRss (now : String) (tweets : List Tweet) : FeedDoc :=
  let byDate := groupTweetsByDate tweets
  let sortedDates := (byDate.map Prod.fst).mergeSort (fun a b => decide (b ≤ a))
  { title := ("Twitter: All Categories"),
    description := ("All categorized tweets from Twitter Following list"),
    id := ("https://rss.jasonbenn.com/twitter/all"),
    link := ("https://rss.jasonbenn.com/twitter/all"),
    language := ("en"), updated := now, copyright := (""),
    items := (sortedDates.take 30).map (fun date =>
      { title := ("Twitter Digest: ") ++ date ++ (" (")
          ++ toString ((byDate.lookup date).getD []).length ++ (" tweets)"),
        id := ("all-") ++ date,
        link := ("https://rss.jasonbenn.com/twitter/all"),
        description := categorySectionsHtml
          (groupByKey tweetCategory ((byDate.lookup date).getD [])),
        date := date }) }

theorem upsertGroup_keys_of_present {α : Type} (k : String) (x : α) :
    ∀ acc : List (String × List α), k ∈ acc.map Prod.fst →
      (upsertGroup k x acc).map Prod.fst = acc.map Prod.fst := by
  intro acc
  induction acc with
  | nil => intro h; cases h
  | cons p rest ih =>
    obtain ⟨a, b⟩ := p
    intro h
    by_cases ha : a = k
    · simp [upsertGroup, ha]
    · have h' : k ∈ rest.map Prod.fst := by
        rw [List.map_cons] at h
        rcases List.mem_cons.1 h with h1 | h1
        · exact absurd h1.symm ha
        · exact h1
      simp [upsertGroup, ha, ih h']

theorem upsertGroup_of_absent {α : Type} (k : String) (x : α) :
    ∀ acc : List (String × List α), k ∉ acc.map Prod.fst →
      upsertGroup k x acc = acc ++ [(k, [x])] := by
  intro acc
  induction acc with
  | nil => intro _; rfl
  | cons p rest ih =>
    obtain ⟨a, b⟩ := p
    intro h
    have ha : ¬ (a = k) := fun he => h (by simp [he])
    simp only [upsertGroup, if_neg ha, List.cons_append, List.cons.injEq, true_and]
    exact ih (fun hm => h (by simp [hm]))

theorem upsertGroup_mem_spec {α : Type} (k : String) (x : α) :
    ∀ acc : List (String × List α), (acc.map Prod.fst).Nodup →
      ∀ q ∈ upsertGroup k x acc,
        (q.1 ≠ k ∧ q ∈ acc) ∨
        (q.1 = k ∧ ∃ g, q.2 = g ++ [x] ∧
          ((k, g) ∈ acc ∨ (g = [] ∧ k ∉ acc.map Prod.fst))) := by
  intro acc
  induction acc with
  | nil =>
    intro _ q hq
    simp only [upsertGroup, List.mem_singleton] at hq
    subst hq
    exact Or.inr ⟨rfl, [], rfl, Or.inr ⟨rfl, by simp⟩⟩
  | cons p rest ih =>
    obtain ⟨a, b⟩ := p
    intro hnd q hq
    rw [List.map_cons, List.nodup_cons] at hnd
    by_cases ha : a = k
    · simp only [upsertGroup, if_pos ha] at hq
      rcases List.mem_cons.1 hq with rfl | hq'
      · subst ha
        exact Or.inr ⟨rfl, b, rfl, Or.inl (List.mem_cons_self _ _)⟩
      · refine Or.inl ⟨?_, List.mem_cons_of_mem _ hq'⟩
        intro he
        exact hnd.1 (List.mem_map.2 ⟨q, hq', he.trans ha.symm⟩)
    · simp only [upsertGroup, if_neg ha] at hq
      rcases List.mem_cons.1 hq with rfl | hq'
      · exact Or.inl ⟨by simpa using ha, List.mem_cons_self _ _⟩
      · rcases ih hnd.2 q hq' with ⟨hne, hmem⟩ | ⟨heq, g, hg, hcase⟩
        · exact Or.inl ⟨hne, List.mem_cons_of_mem _ hmem⟩
        · refine Or.inr ⟨heq, g, hg, ?_⟩
          rcases hcase with hmem | ⟨hgnil, habs⟩
          · exact Or.inl (List.mem_cons_of_mem _ hmem)
          · refine Or.inr ⟨hgnil, ?_⟩
            intro hk
            rw [List.map_cons] at hk
            rcases List.mem_cons.1 hk with h1 | h1
            · exact ha h1.symm
            · exact habs h1

/-- Invariant carried by the grouping fold: distinct keys, each group holds
exactly the processed elements with that key (in order, non-empty), and
every processed element's key has a group. -/
def GroupInv {α : Type} (key : α → String) (processed : List α)
    (acc : List (String × List α)) : Prop :=
  (acc.map Prod.fst).Nodup ∧
  (∀ p ∈ acc, p.2 = processed.filter (fun y => decide (key y = p.1)) ∧ p.2 ≠ []) ∧
  (∀ y ∈ processed, key y ∈ acc.map Prod.fst)

theorem groupInv_upsert {α : Type} (key : α → String) (x : α) (processed : List α)
    (acc : List (String × List α)) (h : GroupInv key processed acc) :
    GroupInv key (processed ++ [x]) (upsertGroup (key x) x acc) := by
  obtain ⟨hnd, hcont, hcov⟩ := h
  have hsub : ∀ s ∈ acc.map Prod.fst, s ∈ (upsertGroup (key x) x acc).map Prod.fst := by
    by_cases hk : key x ∈ acc.map Prod.fst
    · rw [upsertGroup_keys_of_present (key x) x acc hk]; exact fun s hs => hs
    · rw [upsertGroup_of_absent (key x) x acc hk]; intro s hs; simp [hs]
  have hself : key x ∈ (upsertGroup (key x) x acc).map Prod.fst := by
    by_cases hk : key x ∈ acc.map Prod.fst
    · rw [upsertGroup_keys_of_present (key x) x acc hk]; exact hk
    · rw [upsertGroup_of_absent (key x) x acc hk]; simp
  refine ⟨?_, ?_, ?_⟩
  · by_cases hk : key x ∈ acc.map Prod.fst
    · rw [upsertGroup_keys_of_present (key x) x acc hk]; exact hnd
    · rw [upsertGroup_of_absent (key x) x acc hk, List.map_append, List.nodup_append]
      refine ⟨hnd, by simp, ?_⟩
      intro s hs hs2
      simp only [List.map_cons, List.map_nil, List.mem_singleton] at hs2
      subst hs2
      exact hk hs
  · intro q hq
    rcases upsertGroup_mem_spec (key x) x acc hnd q hq with ⟨hne, hmem⟩ | ⟨heq, g, hg, hcase⟩
    · obtain ⟨hq2, hqne⟩ := hcont q hmem
      refine ⟨?_, hqne⟩
      rw [List.filter_append]
      have hnil : List.filter (fun y => decide (key y = q.1)) [x] = [] := by
        simp only [List.filter_cons, List.filter_nil, decide_eq_true_eq]
        rw [if_neg (fun he => hne he.symm)]
      rw [hnil, List.append_nil, hq2]
    · rcases hcase with hmem | ⟨hgnil, habs⟩
      · obtain ⟨hg2, _⟩ := hcont (key x, g) hmem
        refine ⟨?_, by simp [hg]⟩
        rw [hg, List.filter_append]
        have hone : List.filter (fun y => decide (key y = q.1)) [x] = [x] := by
          simp [heq]
        rw [hone, heq]
        simp only at hg2
        rw [hg2]
      · refine ⟨?_, by simp [hg]⟩
        have hfil : processed.filter (fun y => decide (key y = q.1)) = [] := by
          rw [List.filter_eq_nil_iff]
          intro y hy
          simp only [decide_eq_true_eq]
          intro he
          exact habs (by rw [← heq, ← he]; exact hcov y hy)
        rw [List.filter_append, hfil, hg, hgnil]
        simp [heq]
  · intro y hy
    rcases List.mem_append.1 hy with hy1 | hy2
    · exact hsub _ (hcov y hy1)
    · have hyx : y = x := by simpa using hy2
      subst hyx
      exact hself

theorem groupInv_foldl {α : Type} (key : α → String) :
    ∀ (l processed : List α) (acc : List (String × List α)),
      GroupInv key processed acc →
      GroupInv key (processed ++ l) (l.foldl (fun acc x => upsertGroup (key x) x acc) acc) := by
  intro l
  induction l with
  | nil => intro processed acc h; simpa using h
  | cons x l ih =>
    intro processed acc h
    have h2 := ih (processed ++ [x]) _ (groupInv_upsert key x processed acc h)
    simpa [List.append_assoc] using h2

/-- The grouping invariant holds of `groupByKey`. -/
theorem groupByKey_inv {α : Type} (key : α → String) (l : List α) :
    GroupInv key l (groupByKey key l) := by
  have h0 : GroupInv key [] ([] : List (String × List α)) := by
    refine ⟨by simp, ?_, ?_⟩ <;> intro y hy <;> cases hy
  have h := groupInv_foldl key l [] [] h0
  simpa [groupByKey] using h

theorem lookup_of_mem_keys_nodup {β : Type} :
    ∀ (acc : List (String × β)), (acc.map Prod.fst).Nodup →
      ∀ (a : String) (b : β), (a, b) ∈ acc → acc.lookup a = some b := by
  intro acc
  induction acc with
  | nil => intro _ a b h; cases h
  | cons p rest ih =>
    obtain ⟨a', b'⟩ := p
    intro hnd a b h
    rw [List.map_cons, List.nodup_cons] at hnd
    rcases List.mem_cons.1 h with he | hm
    · injection he with h1 h2
      subst h1
      subst h2
      simp [List.lookup]
    · have hne : a ≠ a' := fun he => hnd.1 (List.mem_map.2 ⟨(a, b), hm, he⟩)
      have hbeq : (a == a') = false := by
        simpa using hne
      rw [List.lookup, hbeq]
      exact ih hnd.2 a b hm

/-- C8: for a fixed post list and scope, everything in the rendered feed
except the feed-level `updated` timestamp is a pure function of the inputs;
`updated` is exactly the render-time clock. -/
theorem render_deterministic (tweets : List Tweet) (category : String) (now1 now2 : String) :
    ((generateCategoryRss now1 tweets category).title
        = (generateCategoryRss now2 tweets category).title ∧
      (generateCategoryRss now1 tweets category).description
        = (generateCategoryRss now2 tweets category).description ∧
      (generateCategoryRss now1 tweets category).id
        = (generateCategoryRss now2 tweets category).id ∧
      (generateCategoryRss now1 tweets category).link
        = (generateCategoryRss now2 tweets category).link ∧
      (generateCategoryRss now1 tweets category).language
        = (generateCategoryRss now2 tweets category).language ∧
      (generateCategoryRss now1 tweets category).copyright
        = (generateCategoryRss now2 tweets category).copyright ∧
      (generateCategoryRss now1 tweets category).items
        = (generateCategoryRss now2 tweets category).items ∧
      (generateCategoryRss now1 tweets category).updated = now1) ∧
    ((generateAllTweetsRss now1 tweets).title = (generateAllTweetsRss now2 tweets).title ∧
      (generateAllTweetsRss now1 tweets).description
        = (generateAllTweetsRss now2 tweets).description ∧
      (generateAllTweetsRss now1 tweets).id = (generateAllTweetsRss now2 tweets).id ∧
      (generateAllTweetsRss now1 tweets).link = (generateAllTweetsRss now2 tweets).link ∧
      (generateAllTweetsRss now1 tweets).language
        = (generateAllTweetsRss now2 tweets).language ∧
      (generateAllTweetsRss now1 tweets).copyright
        = (generateAllTweetsRss now2 tweets).copyright ∧
      (generateAllTweetsRss now1 tweets).items = (generateAllTweetsRss now2 tweets).items ∧
      (generateAllTweetsRss now1 tweets).updated = now1) :=
  ⟨⟨rfl, rfl, rfl, rfl, rfl, rfl, rfl, rfl⟩, ⟨rfl, rfl, rfl, rfl, rfl, rfl, rfl, rfl⟩⟩

/-- Transitivity of the descending `localeCompare` comparator on day keys. -/
theorem strDesc_trans : ∀ a b c : String,
    decide (b ≤ a) = true → decide (c ≤ b) = true → decide (c ≤ a) = true := by
  intro a b c h1 h2
  simp only [decide_eq_true_eq] at h1 h2 ⊢
  exact le_trans h2 h1

/-- Totality of the descending comparator on day keys. -/
theorem strDesc_total : ∀ a b : String, (decide (b ≤ a) || decide (a ≤ b)) = true := by
  intro a b
  simpa [Bool.or_eq_true, decide_eq_true_eq] using le_total b a

/-- A weakly-descending list of distinct strings is strictly descending. -/
theorem pairwise_desc_strict (l : List String) (hnd : l.Nodup)
    (hle : l.Pairwise (fun a b => decide (b ≤ a) = true)) :
    l.Pairwise (fun a b : String => b < a) := by
  have hand := List.Pairwise.and hnd hle
  exact hand.imp (fun h =>
    lt_of_le_of_ne (of_decide_eq_true h.2) (fun he => h.1 he.symm))

/-- Looking up a key of the grouping returns exactly the elements with that
key, in order. -/
theorem groupByKey_lookup_eq {α : Type} (key : α → String) (l : List α) (d : String)
    (hd : d ∈ (groupByKey key l).map Prod.fst) :
    (groupByKey key l).lookup d = some (l.filter (fun y => decide (key y = d))) := by
  obtain ⟨hnd, hcont, _⟩ := groupByKey_inv key l
  obtain ⟨p, hp, hfst⟩ := List.mem_map.1 hd
  obtain ⟨a, g⟩ := p
  simp only at hfst
  subst hfst
  rw [lookup_of_mem_keys_nodup _ hnd a g hp]
  obtain ⟨hg, _⟩ := hcont (a, g) hp
  simp only at hg
  rw [hg]

/-- C6: one feed entry per day for the most recent min(N, 30) distinct days,
newest first, each body subdivided into per-category sections with counts. -/
theorem generateAllTweetsRss_daily_digest (now : String) (tweets : List Tweet) :
    ((generateAllTweetsRss now tweets).items.length
      = min ((groupTweetsByDate tweets).map Prod.fst).length 30) ∧
    ((groupTweetsByDate tweets).map Prod.fst).Nodup ∧
    (∀ t ∈ tweets, tweetDate t ∈ (groupTweetsByDate tweets).map Prod.fst) ∧
    ((generateAllTweetsRss now tweets).items.map FeedItem.date).Pairwise
      (fun a b : String => b < a) ∧
    (∀ it ∈ (generateAllTweetsRss now tweets).items,
      it.date ∈ (groupTweetsByDate tweets).map Prod.fst) ∧
    (∀ d ∈ (groupTweetsByDate tweets).map Prod.fst,
      (∃ it ∈ (generateAllTweetsRss now tweets).items, it.date = d) ∨
      (∀ it ∈ (generateAllTweetsRss now tweets).items, d < it.date)) ∧
    (∀ it ∈ (generateAllTweetsRss now tweets).items,
      it.title = ("Twitter Digest: ") ++ it.date ++ (" (")
        ++ toString (tweets.filter (fun y => decide (tweetDate y = it.date))).length
        ++ (" tweets)") ∧
      it.description = categorySectionsHtml (groupByKey tweetCategory
        (tweets.filter (fun y => decide (tweetDate y = it.date)))) ∧
      ∀ p ∈ groupByKey tweetCategory (tweets.filter (fun y => decide (tweetDate y = it.date))),
        p.2 = (tweets.filter (fun y => decide (tweetDate y = it.date))).filter
          (fun y => decide (tweetCategory y = p.1)) ∧
        p.2.length = (tweets.filter (fun y => decide (tweetDate y = it.date))).countP
          (fun y => decide (tweetCategory y = p.1))) := by
  obtain ⟨hnd, hcont, hcov⟩ := groupByKey_inv tweetDate tweets
  have hitems : (generateAllTweetsRss now tweets).items
      = ((((groupTweetsByDate tweets).map Prod.fst).mergeSort
          (fun a b => decide (b ≤ a))).take 30).map
        (fun date =>
          { title := ("Twitter Digest: ") ++ date ++ (" (")
              ++ toString (((groupTweetsByDate tweets).lookup date).getD []).length
              ++ (" tweets)"),
            id := ("all-") ++ date,
            link := ("https://rss.jasonbenn.com/twitter/all"),
            description := categorySectionsHtml
              (groupByKey tweetCategory (((groupTweetsByDate tweets).lookup date).getD [])),
            date := date }) := rfl
  have hperm : (((groupTweetsByDate tweets).map Prod.fst).mergeSort
      (fun a b => decide (b ≤ a))).Perm ((groupTweetsByDate tweets).map Prod.fst) :=
    List.mergeSort_perm _ _
  have hnds : (((groupTweetsByDate tweets).map Prod.fst).mergeSort
      (fun a b => decide (b ≤ a))).Nodup := hperm.nodup_iff.2 hnd
  have hple := List.sorted_mergeSort strDesc_trans strDesc_total
    ((groupTweetsByDate tweets).map Prod.fst)
  have hstrict := pairwise_desc_strict _ hnds hple
  have hdates : (generateAllTweetsRss now tweets).items.map FeedItem.date
      = (((groupTweetsByDate tweets).map Prod.fst).mergeSort
          (fun a b => decide (b ≤ a))).take 30 := by
    rw [hitems, List.map_map]
    calc _ = ((((groupTweetsByDate tweets).map Prod.fst).mergeSort
            (fun a b => decide (b ≤ a))).take 30).map (fun d => d) :=
          List.map_congr_left (fun d _ => rfl)
      _ = _ := by simp
  have hlookup : ∀ d ∈ ((groupTweetsByDate tweets).map Prod.fst).mergeSort
      (fun a b => decide (b ≤ a)),
      ((groupTweetsByDate tweets).lookup d).getD []
        = tweets.filter (fun y => decide (tweetDate y = d)) := by
    intro d hd
    have hdk : d ∈ (groupByKey tweetDate tweets).map Prod.fst := hperm.mem_iff.1 hd
    show ((groupByKey tweetDate tweets).lookup d).getD []
      = tweets.filter (fun y => decide (tweetDate y = d))
    rw [groupByKey_lookup_eq tweetDate tweets d hdk]
    rfl
  refine ⟨?_, hnd, hcov, ?_, ?_, ?_, ?_⟩
  · rw [hitems]
    simp only [List.length_map, List.length_take, List.length_mergeSort]
    exact Nat.min_comm 30 _
  · rw [hdates]
    exact List.Pairwise.sublist (List.take_sublist 30 _) hstrict
  · intro it hit
    have hin : it.date ∈ (generateAllTweetsRss now tweets).items.map FeedItem.date :=
      List.mem_map_of_mem FeedItem.date hit
    rw [hdates] at hin
    exact hperm.mem_iff.1 (List.mem_of_mem_take hin)
  · intro d hd
    have hds : d ∈ ((groupTweetsByDate tweets).map Prod.fst).mergeSort
        (fun a b => decide (b ≤ a)) := hperm.mem_iff.2 hd
    have hds2 : d ∈ (((groupTweetsByDate tweets).map Prod.fst).mergeSort
          (fun a b => decide (b ≤ a))).take 30
        ++ (((groupTweetsByDate tweets).map Prod.fst).mergeSort
          (fun a b => decide (b ≤ a))).drop 30 := by
      rw [List.take_append_drop]
      exact hds
    have hstrict2 : ((((groupTweetsByDate tweets).map Prod.fst).mergeSort
          (fun a b => decide (b ≤ a))).take 30
        ++ (((groupTweetsByDate tweets).map Prod.fst).mergeSort
          (fun a b => decide (b ≤ a))).drop 30).Pairwise (fun a b : String => b < a) := by
      rw [List.take_append_drop]
      exact hstrict
    rcases List.mem_append.1 hds2 with h1 | h2
    · rw [← hdates] at h1
      obtain ⟨it, hit, heq⟩ := List.mem_map.1 h1
      exact Or.inl ⟨it, hit, heq⟩
    · refine Or.inr ?_
      intro it hit
      have hin : it.date ∈ (((groupTweetsByDate tweets).map Prod.fst).mergeSort
          (fun a b => decide (b ≤ a))).take 30 := by
        rw [← hdates]
        exact List.mem_map_of_mem FeedItem.date hit
      exact (List.pairwise_append.1 hstrict2).2.2 it.date hin d h2
  · intro it hit
    rw [hitems] at hit
    obtain ⟨d, hd', rfl⟩ := List.mem_map.1 hit
    have hdm : d ∈ ((groupTweetsByDate tweets).map Prod.fst).mergeSort
        (fun a b => decide (b ≤ a)) := List.mem_of_mem_take hd'
    have hlk := hlookup d hdm
    refine ⟨?_, ?_, ?_⟩
    · simp only [hlk]
    · simp only [hlk]
    · intro p hp
      simp only [hlk] at hp
      obtain ⟨_, hcont2, _⟩ :=
        groupByKey_inv tweetCategory (tweets.filter (fun y => decide (tweetDate y = d)))
      obtain ⟨hg, _⟩ := hcont2 p hp
      refine ⟨hg, ?_⟩
      rw [hg, List.countP_eq_length_filter]

/-- What a pipeline run does to the outside world: whether the
classification stage was reached and what (if anything) was persisted.
`savedCache = none` means the cache file is left untouched. -/
structure RunOutcome where
  classifyCalled : Bool
  savedCache : Option CacheData
deriving Repr, DecidableEq

/-- The `main` of the classify-twitter orchestrator script, after a
successful fetch (the `documents` parameter): return early on zero digests,
zero parsed tweets, or zero never-seen tweets; otherwise classify the new
tweets (a thrown classification error exits without saving), merge and
persist. -/
def mainRun (E : ArticleExtractors) (nowIso nowMs : String) (apiKey : Option String)
    (respond : List Tweet → Except Unit String) (getTime : String → Int) (saveNow : Int)
    (existing : List Tweet) (documents : List ReadwiseDocument) : RunOutcome :=
  if documents.isEmpty then { classifyCalled := false, savedCache := none }
  else
    let parsedTweets := (documents.map (parseTweetsFromDocument E nowIso nowMs)).flatten
    if parsedTweets.isEmpty then { classifyCalled := false, savedCache := none }
    else
      let existingIds := existing.map Tweet.id
      let newTweets := parsedTweets.filter (fun t => !existingIds.contains t.id)
      if newTweets.isEmpty then { classifyCalled := false, savedCache := none }
      else
        match classifyTweets apiKey respond newTweets with
        | Except.error _ => { classifyCalled := true, savedCache := none }
        | Except.ok classifiedNew =>
            { classifyCalled := true,
              savedCache := some (saveCache getTime saveNow
                (mergeTweets getTime existing classifiedNew)) }

/-- C9: a run that extracts nothing, or whose every extracted post id is
already in the loaded cache, performs no classification and no persist. -/
theorem mainRun_short_circuit (E : ArticleExtractors) (nowIso nowMs : String)
    (apiKey : Option String) (respond : List Tweet → Except Unit String)
    (getTime : String → Int) (saveNow : Int)
    (existing : List Tweet) (documents : List ReadwiseDocument)
    (h : (documents.map (parseTweetsFromDocument E nowIso nowMs)).flatten = [] ∨
      ∀ t ∈ (documents.map (parseTweetsFromDocument E nowIso nowMs)).flatten,
        t.id ∈ existing.map Tweet.id) :
    mainRun E nowIso nowMs apiKey respond getTime saveNow existing documents
      = { classifyCalled := false, savedCache := none } := by
  unfold mainRun
  by_cases hdoc : documents.isEmpty
  · rw [if_pos hdoc]
  · rw [if_neg hdoc]
    rcases h with hnil | hall
    · rw [hnil]
      simp
    · by_cases hpn : ((documents.map (parseTweetsFromDocument E nowIso nowMs)).flatten).isEmpty
      · rw [if_pos hpn]
      · rw [if_neg hpn]
        have hflt : ((documents.map (parseTweetsFromDocument E nowIso nowMs)).flatten).filter
            (fun t => !(existing.map Tweet.id).contains t.id) = [] := by
          rw [List.filter_eq_nil_iff]
          intro t ht
          have hb : ((existing.map Tweet.id).contains t.id) = true :=
            List.elem_iff.2 (hall t ht)
          rw [hb]
          decide
        simp only [hflt]
        simp

/-- C9 witness: a run over zero digest documents touches nothing. -/
theorem mainRun_short_circuit_witness :
    mainRun sampleExtractors ("now") ("123") none (fun _ => Except.error ())
        (fun _ => 0) 0 [] []
      = { classifyCalled := false, savedCache := none } :=
  mainRun_short_circuit sampleExtractors ("now") ("123") none (fun _ => Except.error ())
    (fun _ => 0) 0 [] [] (Or.inl rfl)
